import Mathlib

/-!
A verification development for the `sbat` crate: SBAT (Secure Boot Advanced
Targeting) CSV parsing, the binary revocation-section decoder, and the
revocation-comparison algorithm.

Bytes are modelled as `Nat` (values 0..255 in practice; the definitions are
total over all of `Nat`).  ASCII strings are byte lists.  Fallible Rust
functions returning `Result` are modelled with `Except`.
-/

namespace Sbat

/-- A raw byte. -/
abbrev Byte := Nat

/-- A CSV record: the (truncated) list of field slices of one line. -/
abbrev CsvRecord := List (List Byte)

/-- Error type mirroring `sbat::ParseError`. -/
inductive ParseError where
  | InvalidAscii : ParseError
  | SpecialChar (c : Byte) : ParseError
  | InvalidGeneration : ParseError
  | TooFewFields : ParseError
  | TooManyRecords : ParseError
deriving DecidableEq

/-- Error type mirroring `sbat::RevocationSectionError`. -/
inductive RevocationSectionError where
  | MissingVersion : RevocationSectionError
  | InvalidVersion (v : Nat) : RevocationSectionError
  | MissingHeader : RevocationSectionError
  | InvalidPreviousOffset (o : Nat) : RevocationSectionError
  | InvalidLatestOffset (o : Nat) : RevocationSectionError
  | MissingPreviousNull : RevocationSectionError
  | MissingLatestNull : RevocationSectionError
deriving DecidableEq

/-- `AsciiChar::is_alphanumeric`: ASCII digits and letters. -/
def isAlphanumeric (b : Byte) : Bool :=
  (48 ≤ b && b ≤ 57) || (65 ≤ b && b ≤ 90) || (97 ≤ b && b ≤ 122)

/-- The `ALLOWED_SPECIAL_CHARS` constant from `csv.rs` (byte values, in the
same order; `CurlyBraceClose` appears twice in the source). -/
def ALLOWED_SPECIAL_CHARS : List Byte :=
  [39, 42, 64, 93, 91, 94, 58, 125, 125, 123, 36, 46, 33, 62, 35,
   60, 45, 41, 40, 43, 63, 59, 47, 32, 126, 95]

/-- `is_char_allowed_in_field` from `csv.rs`. -/
def is_char_allowed_in_field (b : Byte) : Bool :=
  isAlphanumeric b || ALLOWED_SPECIAL_CHARS.contains b

/-- `trim_ascii_at_null` from `csv.rs`: truncate at the first NUL byte (the
whole input if none), then require every remaining byte to be ASCII. -/
def trim_ascii_at_null (input : List Byte) : Except ParseError (List Byte) :=
  if (input.takeWhile (fun b => b ≠ 0)).all (fun b => b < 128) then
    .ok (input.takeWhile (fun b => b ≠ 0))
  else .error .InvalidAscii

/-- Strip one trailing carriage return, as `LineIter::next` does for a
line ended by a line feed. -/
def stripCr (line : List Byte) : List Byte :=
  if line.getLast? = some 13 then line.dropLast else line

/-- Worker for `splitLines`; `cur` is the reversed current line. -/
def splitLinesAux : List Byte → List Byte → List (List Byte)
  | cur, [] => if cur.isEmpty then [] else [cur.reverse]
  | cur, b :: rest =>
    if b = 10 then stripCr cur.reverse :: splitLinesAux [] rest
    else splitLinesAux (b :: cur) rest

/-- The list of lines produced by `LineIter`: split at each line feed,
strip one trailing carriage return from a terminated line, emit a final
unterminated line only if it is nonempty. -/
def splitLines (t : List Byte) : List (List Byte) :=
  splitLinesAux [] t

/-- First disallowed character over a line's fields, scanning fields left to
right and characters left to right (the check in `CsvIter::next`). -/
def findBadChar : List (List Byte) → Option Byte
  | [] => none
  | f :: rest =>
    match f.find? (fun c => ! is_char_allowed_in_field c) with
    | some c => some c
    | none => findBadChar rest

/-- Parse one nonempty line into a record of at most `n` fields, as
`CsvIter::next` does: split on commas, reject the first disallowed
character, silently drop fields beyond `n`. -/
def parseRecord (n : Nat) (line : List Byte) : Except ParseError CsvRecord :=
  match findBadChar (line.splitOn 44) with
  | some c => .error (.SpecialChar c)
  | none => .ok ((line.splitOn 44).take n)

/-- The stream of results produced by `CsvIter`: empty lines are skipped,
and an error terminates the stream (the iterator drops its line iterator). -/
def csvStream (n : Nat) : List (List Byte) → List (Except ParseError CsvRecord)
  | [] => []
  | line :: rest =>
    if line.isEmpty then csvStream n rest
    else
      match parseRecord n line with
      | .error e => [.error e]
      | .ok r => .ok r :: csvStream n rest

/-- ASCII decimal digit test. -/
def isDigit (b : Byte) : Bool := 48 ≤ b && b ≤ 57

/-- Numeric value of a digit string (most significant digit first). -/
def digitsToNat (ds : List Byte) : Nat :=
  ds.foldl (fun acc d => acc * 10 + (d - 48)) 0

/-- The sign handling of Rust `from_str_radix` for an unsigned type: one
leading `+` (byte 43) is skipped; everything else is left alone. -/
def stripPlus (s : List Byte) : List Byte :=
  if s.head? = some 43 then s.tail else s

/-- Model of Rust `u32::from_str`: an optional single leading `+`, then a
nonempty run of decimal digits whose value fits in a `u32`; anything else
fails. -/
def u32FromStr (s : List Byte) : Option Nat :=
  if (stripPlus s).isEmpty then none
  else if (stripPlus s).all isDigit then
    if digitsToNat (stripPlus s) < 2 ^ 32 then some (digitsToNat (stripPlus s))
    else none
  else none

/-- `Generation::new`: a generation is a strictly positive `u32`. -/
def Generation.new (v : Nat) : Except ParseError Nat :=
  if v = 0 then .error .InvalidGeneration else .ok v

/-- `Generation::from_ascii`: parse with `u32::from_str`, then require a
nonzero value. -/
def Generation.from_ascii (s : List Byte) : Except ParseError Nat :=
  match u32FromStr s with
  | none => .error .InvalidGeneration
  | some v => Generation.new v

/-- `sbat::Component`: the name and generation used for revocation. -/
structure Component where
  name : List Byte
  generation : Nat
deriving DecidableEq

/-- `Component::from_record`: field 0 is the name, field 1 the generation;
a missing field is `TooFewFields`. -/
def Component.from_record (r : CsvRecord) : Except ParseError Component :=
  match r[0]? with
  | none => .error .TooFewFields
  | some nm =>
    match r[1]? with
    | none => .error .TooFewFields
    | some g =>
      match Generation.from_ascii g with
      | .error e => .error e
      | .ok v => .ok ⟨nm, v⟩

/-- `sbat::Vendor`: four optional cosmetic fields. -/
structure Vendor where
  name : Option (List Byte)
  package_name : Option (List Byte)
  version : Option (List Byte)
  url : Option (List Byte)
deriving DecidableEq

/-- `sbat::Entry`: a component plus vendor data. -/
structure Entry where
  component : Component
  vendor : Vendor
deriving DecidableEq

/-- `Entry::from_record`: the component from fields 0 and 1, vendor data
from optional fields 2 to 5. -/
def Entry.from_record (r : CsvRecord) : Except ParseError Entry :=
  match Component.from_record r with
  | .error e => .error e
  | .ok c => .ok ⟨c, ⟨r[2]?, r[3]?, r[4]?, r[5]?⟩⟩

/-- Maximum stored fields per image entry record (`NUM_ENTRY_FIELDS`). -/
def NUM_ENTRY_FIELDS : Nat := 6

/-- Maximum stored fields per revocation record (`MAX_HEADER_FIELDS`). -/
def MAX_HEADER_FIELDS : Nat := 3

/-- The validation loop shared by `ImageSbat::parse` and
`RevocationSbat::parse`: every nonempty line must decode to a record whose
first two fields form a valid component; the first error aborts. -/
def validateRecords (n : Nat) : List (List Byte) → Except ParseError Unit
  | [] => .ok ()
  | line :: rest =>
    if line.isEmpty then validateRecords n rest
    else
      match parseRecord n line with
      | .error e => .error e
      | .ok r =>
        match Component.from_record r with
        | .error e => .error e
        | .ok _ => validateRecords n rest

/-- `ImageSbat::parse`: trim at NUL, require ASCII, validate every record,
and return the validated text (the `ImageSbat` wrapper stores exactly this
text and re-derives records lazily). -/
def ImageSbat.parse (input : List Byte) : Except ParseError (List Byte) :=
  match trim_ascii_at_null input with
  | .error e => .error e
  | .ok t =>
    match validateRecords NUM_ENTRY_FIELDS (splitLines t) with
    | .error e => .error e
    | .ok _ => .ok t

/-- `RevocationSbat::parse`: same shape as `ImageSbat::parse` but with
three-field records. -/
def RevocationSbat.parse (input : List Byte) : Except ParseError (List Byte) :=
  match trim_ascii_at_null input with
  | .error e => .error e
  | .ok t =>
    match validateRecords MAX_HEADER_FIELDS (splitLines t) with
    | .error e => .error e
    | .ok _ => .ok t

/-- The records the CSV layer exposes for stored text `t` (the `Ok`
elements of the stream). -/
def recordsOf (n : Nat) (t : List Byte) : List CsvRecord :=
  (csvStream n (splitLines t)).filterMap Except.toOption

/-- `Entries::next` as observed across the whole iterator: each stream
element is unwrapped twice (CSV result, then `Entry::from_record`); `none`
marks a panic of one of those unwraps. -/
def ImageSbat.entries (t : List Byte) : List (Option Entry) :=
  (csvStream NUM_ENTRY_FIELDS (splitLines t)).map fun x =>
    match x with
    | .error _ => none
    | .ok r => (Entry.from_record r).toOption

/-- `RevokedComponents::next` as observed across the whole iterator; `none`
marks a panic of one of the unwraps in it. -/
def RevocationSbat.revoked_components (t : List Byte) :
    List (Option Component) :=
  (csvStream MAX_HEADER_FIELDS (splitLines t)).map fun x =>
    match x with
    | .error _ => none
    | .ok r => (Component.from_record r).toOption

/-- The image entries with the panic cases skipped; on text accepted by
`ImageSbat.parse` this is exactly what the Rust iterator yields. -/
def ImageSbat.entriesOk (t : List Byte) : List Entry :=
  (csvStream NUM_ENTRY_FIELDS (splitLines t)).filterMap fun x =>
    match x with
    | .error _ => none
    | .ok r => (Entry.from_record r).toOption

/-- The revocation components with the panic cases skipped; on text accepted
by `RevocationSbat.parse` this is exactly what the Rust iterator yields. -/
def RevocationSbat.components (t : List Byte) : List Component :=
  (csvStream MAX_HEADER_FIELDS (splitLines t)).filterMap fun x =>
    match x with
    | .error _ => none
    | .ok r => (Component.from_record r).toOption

/-- `RevocationSbat::date`: field 2 of the first record, if any. -/
def RevocationSbat.date (t : List Byte) : Option (List Byte) :=
  match (csvStream MAX_HEADER_FIELDS (splitLines t)).head? with
  | none => none
  | some (.error _) => none
  | some (.ok r) => r[2]?

/-- `ValidationResult` from `revocations.rs`. -/
inductive ValidationResult where
  | Allowed : ValidationResult
  | Revoked (e : Entry) : ValidationResult
deriving DecidableEq

/-- `RevocationSbat::is_component_revoked`: some revocation component has
the same name and a strictly larger generation. -/
def is_component_revoked (rev : List Byte) (input : Component) : Bool :=
  (RevocationSbat.components rev).any fun rc =>
    decide (input.name = rc.name ∧ input.generation < rc.generation)

/-- `RevocationSbat::validate_image`: first image entry whose component is
revoked, else `Allowed`. -/
def validate_image (rev img : List Byte) : ValidationResult :=
  match (ImageSbat.entriesOk img).find?
      (fun e => is_component_revoked rev e.component) with
  | some e => .Revoked e
  | none => .Allowed

/-- Little-endian `u32` of a 4-byte list (`u32::from_le_bytes`). -/
def le32 (l : List Byte) : Nat :=
  match l with
  | [b0, b1, b2, b3] => b0 + 256 * (b1 + 256 * (b2 + 256 * b3))
  | _ => 0

/-- `RevocationSection::parse` from `revocation_section.rs`: version check,
header check, offset range checks (offsets are relative to the end of the
version field), then NUL-scan for each payload. -/
def RevocationSection.parse (blob : List Byte) :
    Except RevocationSectionError (List Byte × List Byte) :=
  if blob.length < 4 then .error .MissingVersion
  else
    let version := le32 (blob.take 4)
    if version ≠ 0 then .error (.InvalidVersion version)
    else
      let data := blob.drop 4
      if data.length < 8 then .error .MissingHeader
      else
        let previous_offset := le32 (data.take 4)
        let latest_offset := le32 ((data.drop 4).take 4)
        if previous_offset ≥ data.length then
          .error (.InvalidPreviousOffset previous_offset)
        else if latest_offset ≥ data.length then
          .error (.InvalidLatestOffset latest_offset)
        else
          match (data.drop previous_offset).findIdx? (fun b => b = 0) with
          | none => .error .MissingPreviousNull
          | some previous_len =>
            match (data.drop latest_offset).findIdx? (fun b => b = 0) with
            | none => .error .MissingLatestNull
            | some latest_len =>
              .ok ((data.drop previous_offset).take previous_len,
                   (data.drop latest_offset).take latest_len)

/-- The revocation-section decode algorithm as the specification words it
(with the payload offsets taken relative to the end of the version field):
each payload is the run of non-NUL bytes from its start index, and a
missing NUL anywhere at or after the start index is an error. -/
def revocationSectionSpec (blob : List Byte) :
    Except RevocationSectionError (List Byte × List Byte) :=
  if blob.length < 4 then .error .MissingVersion
  else
    let version := le32 (blob.take 4)
    if version ≠ 0 then .error (.InvalidVersion version)
    else
      let data := blob.drop 4
      if data.length < 8 then .error .MissingHeader
      else
        let previous_offset := le32 (data.take 4)
        let latest_offset := le32 ((data.drop 4).take 4)
        if previous_offset ≥ data.length then
          .error (.InvalidPreviousOffset previous_offset)
        else if latest_offset ≥ data.length then
          .error (.InvalidLatestOffset latest_offset)
        else if (data.drop previous_offset).all (fun b => b ≠ 0) then
          .error .MissingPreviousNull
        else if (data.drop latest_offset).all (fun b => b ≠ 0) then
          .error .MissingLatestNull
        else
          .ok ((data.drop previous_offset).takeWhile (fun b => b ≠ 0),
               (data.drop latest_offset).takeWhile (fun b => b ≠ 0))

/-! ## Helper lemmas -/

/-- `List.find?` returns the first element satisfying the predicate: a
positional characterization. -/
theorem find?_eq_some_iff_first {α : Type} (p : α → Bool) (l : List α)
    (e : α) :
    l.find? p = some e ↔
      ∃ i : Nat, l[i]? = some e ∧ p e = true ∧
        ∀ j : Nat, j < i → ∀ x, l[j]? = some x → p x = false := by
  induction l with
  | nil => simp [List.find?]
  | cons a l ih =>
    cases h : p a with
    | true =>
      rw [List.find?_cons_of_pos _ h]
      constructor
      · rintro he
        injection he with he
        subst he
        exact ⟨0, by simp, h, fun j hj => absurd hj (Nat.not_lt_zero j)⟩
      · rintro ⟨i, hi, hpe, hfirst⟩
        cases i with
        | zero =>
          simp only [List.getElem?_cons_zero, Option.some.injEq] at hi
          rw [hi]
        | succ k =>
          have := hfirst 0 (Nat.succ_pos k) a (by simp)
          rw [h] at this
          exact absurd this (by simp)
    | false =>
      rw [List.find?_cons_of_neg _ (by simp [h])]
      rw [ih]
      constructor
      · rintro ⟨i, hi, hpe, hfirst⟩
        refine ⟨i + 1, by simpa using hi, hpe, ?_⟩
        intro j hj x hx
        cases j with
        | zero =>
          simp only [List.getElem?_cons_zero, Option.some.injEq] at hx
          exact hx ▸ h
        | succ k =>
          exact hfirst k (Nat.succ_lt_succ_iff.mp hj) x (by simpa using hx)
      · rintro ⟨i, hi, hpe, hfirst⟩
        cases i with
        | zero =>
          simp only [List.getElem?_cons_zero, Option.some.injEq] at hi
          rw [← hi] at hpe
          rw [hpe] at h
          exact absurd h (by simp)
        | succ k =>
          refine ⟨k, by simpa using hi, hpe, ?_⟩
          intro j hj x hx
          exact hfirst (j + 1) (Nat.succ_lt_succ hj) x (by simpa using hx)

/-- Equation: the CSV stream skips an empty line. -/
theorem csvStream_cons_empty (n : Nat) (line : List Byte)
    (rest : List (List Byte)) (h : line.isEmpty = true) :
    csvStream n (line :: rest) = csvStream n rest := by
  simp [csvStream, h]

/-- Equation: a line that fails the character check ends the CSV stream
with its error. -/
theorem csvStream_cons_err (n : Nat) (line : List Byte)
    (rest : List (List Byte)) (e : ParseError) (h1 : line.isEmpty = false)
    (h2 : parseRecord n line = .error e) :
    csvStream n (line :: rest) = [.error e] := by
  simp [csvStream, h1, h2]

/-- Equation: a nonempty line that decodes yields its record on the CSV
stream. -/
theorem csvStream_cons_ok (n : Nat) (line : List Byte)
    (rest : List (List Byte)) (r : CsvRecord) (h1 : line.isEmpty = false)
    (h2 : parseRecord n line = .ok r) :
    csvStream n (line :: rest) = .ok r :: csvStream n rest := by
  simp [csvStream, h1, h2]

/-- Equation: validation skips an empty line. -/
theorem validateRecords_cons_empty (n : Nat) (line : List Byte)
    (rest : List (List Byte)) (h : line.isEmpty = true) :
    validateRecords n (line :: rest) = validateRecords n rest := by
  simp [validateRecords, h]

/-- Equation: validation propagates a CSV decoding error. -/
theorem validateRecords_cons_err1 (n : Nat) (line : List Byte)
    (rest : List (List Byte)) (e : ParseError) (h1 : line.isEmpty = false)
    (h2 : parseRecord n line = .error e) :
    validateRecords n (line :: rest) = .error e := by
  simp [validateRecords, h1, h2]

/-- Equation: validation propagates a component conversion error. -/
theorem validateRecords_cons_err2 (n : Nat) (line : List Byte)
    (rest : List (List Byte)) (r : CsvRecord) (e : ParseError)
    (h1 : line.isEmpty = false) (h2 : parseRecord n line = .ok r)
    (h3 : Component.from_record r = .error e) :
    validateRecords n (line :: rest) = .error e := by
  simp [validateRecords, h1, h2, h3]

/-- Equation: validation steps over a valid record. -/
theorem validateRecords_cons_ok (n : Nat) (line : List Byte)
    (rest : List (List Byte)) (r : CsvRecord) (c : Component)
    (h1 : line.isEmpty = false) (h2 : parseRecord n line = .ok r)
    (h3 : Component.from_record r = .ok c) :
    validateRecords n (line :: rest) = validateRecords n rest := by
  simp [validateRecords, h1, h2, h3]

/-- An ASCII failure of the trimming layer is the parse result. -/
theorem ImageSbat.parse_eq_of_trim_error (input : List Byte) (e : ParseError)
    (h : trim_ascii_at_null input = .error e) :
    ImageSbat.parse input = .error e := by
  simp [ImageSbat.parse, h]

/-- A validation failure on the trimmed text is the parse result. -/
theorem imageParse_eq_of_validate_error (input t : List Byte)
    (e : ParseError) (ht : trim_ascii_at_null input = .ok t)
    (hv : validateRecords NUM_ENTRY_FIELDS (splitLines t) = .error e) :
    ImageSbat.parse input = .error e := by
  simp [ImageSbat.parse, ht, hv]

/-- A validation failure on the trimmed text is the parse result
(revocation lists). -/
theorem revocationParse_eq_of_validate_error (input t : List Byte)
    (e : ParseError) (ht : trim_ascii_at_null input = .ok t)
    (hv : validateRecords MAX_HEADER_FIELDS (splitLines t) = .error e) :
    RevocationSbat.parse input = .error e := by
  simp [RevocationSbat.parse, ht, hv]

/-- Inversion of a successful `ImageSbat.parse`: the result is the trimmed
text and every record of that text validated. -/
theorem imageParse_ok_inv (input t : List Byte)
    (h : ImageSbat.parse input = .ok t) :
    trim_ascii_at_null input = .ok t ∧
      validateRecords NUM_ENTRY_FIELDS (splitLines t) = .ok () := by
  unfold ImageSbat.parse at h
  split at h
  · exact absurd h (by simp)
  · rename_i t' htrim
    split at h
    · exact absurd h (by simp)
    · rename_i u hv
      injection h with h
      subst h
      exact ⟨htrim, hv⟩

/-- Inversion of a successful `RevocationSbat.parse`. -/
theorem revocationParse_ok_inv (input t : List Byte)
    (h : RevocationSbat.parse input = .ok t) :
    trim_ascii_at_null input = .ok t ∧
      validateRecords MAX_HEADER_FIELDS (splitLines t) = .ok () := by
  unfold RevocationSbat.parse at h
  split at h
  · exact absurd h (by simp)
  · rename_i t' htrim
    split at h
    · exact absurd h (by simp)
    · rename_i u hv
      injection h with h
      subst h
      exact ⟨htrim, hv⟩

/-- If the up-front validation loop succeeded, every element of the lazy
CSV stream is an `ok` record whose component conversion succeeds. -/
theorem validateRecords_ok_stream (n : Nat) (lines : List (List Byte))
    (h : validateRecords n lines = .ok ()) :
    ∀ x ∈ csvStream n lines,
      ∃ r, x = .ok r ∧ ∃ c, Component.from_record r = .ok c := by
  induction lines with
  | nil => intro x hx; simp [csvStream] at hx
  | cons line rest ih =>
    intro x hx
    cases hemp : line.isEmpty with
    | true =>
      rw [validateRecords_cons_empty n line rest hemp] at h
      rw [csvStream_cons_empty n line rest hemp] at hx
      exact ih h x hx
    | false =>
      cases hp : parseRecord n line with
      | error e =>
        rw [validateRecords_cons_err1 n line rest e hemp hp] at h
        exact absurd h (by simp)
      | ok r =>
        cases hc : Component.from_record r with
        | error e =>
          rw [validateRecords_cons_err2 n line rest r e hemp hp hc] at h
          exact absurd h (by simp)
        | ok c =>
          rw [validateRecords_cons_ok n line rest r c hemp hp hc] at h
          rw [csvStream_cons_ok n line rest r hemp hp] at hx
          rcases List.mem_cons.mp hx with rfl | hx'
          · exact ⟨r, rfl, c, hc⟩
          · exact ih h x hx'

/-- `Entry.from_record` succeeds exactly when the component part does. -/
theorem Entry.from_record_ok (r : CsvRecord) (c : Component)
    (h : Component.from_record r = .ok c) :
    Entry.from_record r = .ok ⟨c, ⟨r[2]?, r[3]?, r[4]?, r[5]?⟩⟩ := by
  unfold Entry.from_record
  rw [h]

/-! ## Claims -/

/-- C2: for a successfully parsed revocation list, `is_component_revoked`
holds iff some revocation component has a byte-for-byte equal name and a
strictly larger generation; a name absent from the list is never revoked. -/
theorem is_component_revoked_iff (R tR : List Byte) (c : Component)
    (hR : RevocationSbat.parse R = .ok tR) :
    (is_component_revoked tR c = true ↔
      ∃ rc ∈ RevocationSbat.components tR,
        rc.name = c.name ∧ c.generation < rc.generation)
    ∧ ((∀ rc ∈ RevocationSbat.components tR, rc.name ≠ c.name) →
        is_component_revoked tR c = false) := by
  constructor
  · unfold is_component_revoked
    rw [List.any_eq_true]
    constructor
    · rintro ⟨rc, hmem, hp⟩
      rw [decide_eq_true_eq] at hp
      exact ⟨rc, hmem, hp.1.symm, hp.2⟩
    · rintro ⟨rc, hmem, h1, h2⟩
      exact ⟨rc, hmem, decide_eq_true ⟨h1.symm, h2⟩⟩
  · intro h
    unfold is_component_revoked
    rw [List.any_eq_false]
    intro rc hmem
    intro hp
    rw [decide_eq_true_eq] at hp
    exact h rc hmem (hp.1.symm)

/-- Witness for C2 on the concrete revocation list `compA,2\ncompB,3` and
the component `compA` at generation 1. -/
theorem is_component_revoked_iff_witness :
    (is_component_revoked
        [99, 111, 109, 112, 65, 44, 50, 10, 99, 111, 109, 112, 66, 44, 51]
        ⟨[99, 111, 109, 112, 65], 1⟩ = true ↔
      ∃ rc ∈ RevocationSbat.components
          [99, 111, 109, 112, 65, 44, 50, 10, 99, 111, 109, 112, 66, 44, 51],
        rc.name = [99, 111, 109, 112, 65] ∧ 1 < rc.generation)
    ∧ ((∀ rc ∈ RevocationSbat.components
          [99, 111, 109, 112, 65, 44, 50, 10, 99, 111, 109, 112, 66, 44, 51],
        rc.name ≠ [99, 111, 109, 112, 65]) →
      is_component_revoked
        [99, 111, 109, 112, 65, 44, 50, 10, 99, 111, 109, 112, 66, 44, 51]
        ⟨[99, 111, 109, 112, 65], 1⟩ = false) :=
  is_component_revoked_iff
    [99, 111, 109, 112, 65, 44, 50, 10, 99, 111, 109, 112, 66, 44, 51]
    [99, 111, 109, 112, 65, 44, 50, 10, 99, 111, 109, 112, 66, 44, 51]
    ⟨[99, 111, 109, 112, 65], 1⟩ rfl

/-- Inversion: `validate_image` answers `Revoked e` iff `e` is what the
first-match search over the image entries finds. -/
theorem validate_image_eq_revoked_iff (rev img : List Byte) (e : Entry) :
    validate_image rev img = .Revoked e ↔
      (ImageSbat.entriesOk img).find?
        (fun x => is_component_revoked rev x.component) = some e := by
  unfold validate_image
  split
  · rename_i a heq
    constructor
    · intro h
      injection h with h
      exact h ▸ heq
    · intro h
      rw [heq] at h
      injection h with h
      rw [h]
  · rename_i heq
    constructor
    · intro h
      exact absurd h (by simp)
    · intro h
      rw [h] at heq
      exact absurd heq (by simp)

/-- Inversion: `validate_image` answers `Allowed` iff the first-match
search over the image entries finds nothing. -/
theorem validate_image_eq_allowed_iff (rev img : List Byte) :
    validate_image rev img = .Allowed ↔
      (ImageSbat.entriesOk img).find?
        (fun x => is_component_revoked rev x.component) = none := by
  unfold validate_image
  split
  · rename_i a heq
    constructor
    · intro h
      exact absurd h (by simp)
    · intro h
      rw [h] at heq
      exact absurd heq (by simp)
  · rename_i heq
    exact ⟨fun _ => heq, fun _ => rfl⟩

/-- C1: for a successfully parsed revocation list and image,
`validate_image` returns `Revoked e` exactly when `e` is the first image
entry, in stored input-line order, whose component is revoked, and
`Allowed` exactly when no entry's component is revoked. -/
theorem validate_image_first_match (R I tR tI : List Byte)
    (hR : RevocationSbat.parse R = .ok tR)
    (hI : ImageSbat.parse I = .ok tI) :
    (∀ e : Entry, validate_image tR tI = .Revoked e ↔
      ∃ i : Nat, (ImageSbat.entriesOk tI)[i]? = some e ∧
        is_component_revoked tR e.component = true ∧
        ∀ j : Nat, j < i → ∀ x : Entry,
          (ImageSbat.entriesOk tI)[j]? = some x →
            is_component_revoked tR x.component = false)
    ∧ (validate_image tR tI = .Allowed ↔
        ∀ e ∈ ImageSbat.entriesOk tI,
          is_component_revoked tR e.component = false) := by
  constructor
  · intro e
    rw [validate_image_eq_revoked_iff]
    exact find?_eq_some_iff_first _ _ e
  · rw [validate_image_eq_allowed_iff]
    rw [List.find?_eq_none]
    constructor
    · intro h e he
      have := h e he
      simpa using this
    · intro h e he
      simpa using h e he

/-- Witness for C1: revocation list `compA,2\ncompB,3` against the image
`compA,1\ncompB,2`; both entries are revoked and the first one in line
order is reported. -/
theorem validate_image_first_match_witness :
    (∀ e : Entry,
      validate_image
        [99, 111, 109, 112, 65, 44, 50, 10, 99, 111, 109, 112, 66, 44, 51]
        [99, 111, 109, 112, 65, 44, 49, 10, 99, 111, 109, 112, 66, 44, 50]
          = .Revoked e ↔
      ∃ i : Nat,
        (ImageSbat.entriesOk
          [99, 111, 109, 112, 65, 44, 49, 10, 99, 111, 109, 112, 66, 44, 50])[i]?
            = some e ∧
        is_component_revoked
          [99, 111, 109, 112, 65, 44, 50, 10, 99, 111, 109, 112, 66, 44, 51]
          e.component = true ∧
        ∀ j : Nat, j < i → ∀ x : Entry,
          (ImageSbat.entriesOk
            [99, 111, 109, 112, 65, 44, 49, 10, 99, 111, 109, 112, 66, 44, 50])[j]?
              = some x →
            is_component_revoked
              [99, 111, 109, 112, 65, 44, 50, 10, 99, 111, 109, 112, 66, 44, 51]
              x.component = false)
    ∧ (validate_image
        [99, 111, 109, 112, 65, 44, 50, 10, 99, 111, 109, 112, 66, 44, 51]
        [99, 111, 109, 112, 65, 44, 49, 10, 99, 111, 109, 112, 66, 44, 50]
          = .Allowed ↔
        ∀ e ∈ ImageSbat.entriesOk
          [99, 111, 109, 112, 65, 44, 49, 10, 99, 111, 109, 112, 66, 44, 50],
          is_component_revoked
            [99, 111, 109, 112, 65, 44, 50, 10, 99, 111, 109, 112, 66, 44, 51]
            e.component = false) :=
  validate_image_first_match
    [99, 111, 109, 112, 65, 44, 50, 10, 99, 111, 109, 112, 66, 44, 51]
    [99, 111, 109, 112, 65, 44, 49, 10, 99, 111, 109, 112, 66, 44, 50]
    [99, 111, 109, 112, 65, 44, 50, 10, 99, 111, 109, 112, 66, 44, 51]
    [99, 111, 109, 112, 65, 44, 49, 10, 99, 111, 109, 112, 66, 44, 50]
    rfl rfl

/-- C4: parsing and validation are total functions of the input bytes in
this model, so termination and absence of out-of-bounds access hold by
construction; the substantive content is that after a successful parse the
lazy iterators never hit their internal unwraps: every element of the
image entry iterator and of the revocation component iterator is `some`,
and every element of the underlying CSV stream (consumed by `date` and by
both iterators, hence by `validate_image`) is an `ok` record. -/
theorem iterators_never_panic (input t : List Byte) :
    (ImageSbat.parse input = .ok t →
      ∀ x ∈ ImageSbat.entries t, x.isSome = true)
    ∧ (RevocationSbat.parse input = .ok t →
      (∀ x ∈ RevocationSbat.revoked_components t, x.isSome = true)
      ∧ ∀ y ∈ csvStream MAX_HEADER_FIELDS (splitLines t), ∃ r, y = .ok r) := by
  constructor
  · intro h x hx
    obtain ⟨-, hv⟩ := imageParse_ok_inv input t h
    unfold ImageSbat.entries at hx
    rcases List.mem_map.mp hx with ⟨y, hy, rfl⟩
    obtain ⟨r, rfl, c, hc⟩ := validateRecords_ok_stream _ _ hv y hy
    simp [Entry.from_record_ok r c hc, Except.toOption]
  · intro h
    obtain ⟨-, hv⟩ := revocationParse_ok_inv input t h
    constructor
    · intro x hx
      unfold RevocationSbat.revoked_components at hx
      rcases List.mem_map.mp hx with ⟨y, hy, rfl⟩
      obtain ⟨r, rfl, c, hc⟩ := validateRecords_ok_stream _ _ hv y hy
      simp [hc, Except.toOption]
    · intro y hy
      obtain ⟨r, rfl, -⟩ := validateRecords_ok_stream _ _ hv y hy
      exact ⟨r, rfl⟩

/-- Witness for C4 on the input `compA,1`, valid both as image metadata
and as a revocation list. -/
theorem iterators_never_panic_witness :
    (∀ x ∈ ImageSbat.entries [99, 111, 109, 112, 65, 44, 49],
      x.isSome = true)
    ∧ ∀ x ∈ RevocationSbat.revoked_components [99, 111, 109, 112, 65, 44, 49],
        x.isSome = true :=
  ⟨(iterators_never_panic [99, 111, 109, 112, 65, 44, 49]
      [99, 111, 109, 112, 65, 44, 49]).1 rfl,
   ((iterators_never_panic [99, 111, 109, 112, 65, 44, 49]
      [99, 111, 109, 112, 65, 44, 49]).2 rfl).1⟩

/-- After successful validation, the records of the CSV stream and the
components derived from them line up one to one, in order. -/
theorem stream_records_components (n : Nat) (lines : List (List Byte))
    (h : validateRecords n lines = .ok ()) :
    List.Forall₂ (fun r c => Component.from_record r = .ok c)
      ((csvStream n lines).filterMap Except.toOption)
      ((csvStream n lines).filterMap fun x =>
        match x with
        | .error _ => none
        | .ok r => (Component.from_record r).toOption) := by
  induction lines with
  | nil => simp [csvStream]
  | cons line rest ih =>
    cases hemp : line.isEmpty with
    | true =>
      rw [validateRecords_cons_empty n line rest hemp] at h
      rw [csvStream_cons_empty n line rest hemp]
      exact ih h
    | false =>
      cases hp : parseRecord n line with
      | error e =>
        rw [validateRecords_cons_err1 n line rest e hemp hp] at h
        exact absurd h (by simp)
      | ok r =>
        cases hc : Component.from_record r with
        | error e =>
          rw [validateRecords_cons_err2 n line rest r e hemp hp hc] at h
          exact absurd h (by simp)
        | ok c =>
          rw [validateRecords_cons_ok n line rest r c hemp hp hc] at h
          rw [csvStream_cons_ok n line rest r hemp hp]
          simp only [List.filterMap_cons, Except.toOption, hc]
          exact List.Forall₂.cons hc (ih h)

/-- C10: for a successfully parsed revocation list, every CSV record —
including the first, date-carrying header record — yields exactly one
component of `revoked_components`, in order with none excluded, and every
yielded component participates in `is_component_revoked` like any other. -/
theorem header_record_participates (R tR : List Byte)
    (hR : RevocationSbat.parse R = .ok tR) :
    List.Forall₂ (fun r c => Component.from_record r = .ok c)
      (recordsOf MAX_HEADER_FIELDS tR) (RevocationSbat.components tR)
    ∧ ∀ input : Component, ∀ c ∈ RevocationSbat.components tR,
        input.name = c.name → input.generation < c.generation →
          is_component_revoked tR input = true := by
  obtain ⟨-, hv⟩ := revocationParse_ok_inv R tR hR
  constructor
  · unfold recordsOf RevocationSbat.components
    exact stream_records_components MAX_HEADER_FIELDS (splitLines tR) hv
  · intro input c hmem hname hgen
    unfold is_component_revoked
    rw [List.any_eq_true]
    exact ⟨c, hmem, decide_eq_true ⟨hname, hgen⟩⟩

/-- Witness for C10: the revocation list `sbat,1,2021030218\ncompA,2`; its
header record `sbat,1` is a revocation component like any other. -/
theorem header_record_participates_witness :
    List.Forall₂ (fun r c => Component.from_record r = .ok c)
      (recordsOf MAX_HEADER_FIELDS
        [115, 98, 97, 116, 44, 49, 44, 50, 48, 50, 49, 48, 51, 48, 50, 49,
         56, 10, 99, 111, 109, 112, 65, 44, 50])
      (RevocationSbat.components
        [115, 98, 97, 116, 44, 49, 44, 50, 48, 50, 49, 48, 51, 48, 50, 49,
         56, 10, 99, 111, 109, 112, 65, 44, 50])
    ∧ ∀ input : Component,
        ∀ c ∈ RevocationSbat.components
          [115, 98, 97, 116, 44, 49, 44, 50, 48, 50, 49, 48, 51, 48, 50, 49,
           56, 10, 99, 111, 109, 112, 65, 44, 50],
        input.name = c.name → input.generation < c.generation →
          is_component_revoked
            [115, 98, 97, 116, 44, 49, 44, 50, 48, 50, 49, 48, 51, 48, 50,
             49, 56, 10, 99, 111, 109, 112, 65, 44, 50] input = true :=
  header_record_participates
    [115, 98, 97, 116, 44, 49, 44, 50, 48, 50, 49, 48, 51, 48, 50, 49, 56,
     10, 99, 111, 109, 112, 65, 44, 50]
    [115, 98, 97, 116, 44, 49, 44, 50, 48, 50, 49, 48, 51, 48, 50, 49, 56,
     10, 99, 111, 109, 112, 65, 44, 50] rfl

/-- Truncation at the first NUL, as a `takeWhile` fact: NUL-free data
followed by a NUL and arbitrary bytes truncates to the NUL-free part. -/
theorem takeWhile_ne_zero_append (p s : List Byte)
    (hp : ∀ b ∈ p, b ≠ 0) :
    (p ++ 0 :: s).takeWhile (fun b => b ≠ 0) = p.takeWhile (fun b => b ≠ 0) := by
  induction p with
  | nil => simp [List.takeWhile_cons]
  | cons a p ih =>
    have ha : a ≠ 0 := hp a (List.mem_cons_self a p)
    simp only [List.cons_append, List.takeWhile_cons, decide_eq_true ha]
    rw [ih (fun b hb => hp b (List.mem_cons_of_mem a hb))]

/-- C6: everything from the first NUL byte on is ignored — parsing
NUL-free bytes `p` followed by a NUL and arbitrary garbage `s` gives
exactly the result of parsing `p` alone (a NUL is not required) — and a
non-ASCII byte (value at least 0x80) before the first NUL makes the parse
fail with `InvalidAscii`. -/
theorem parse_ignores_after_nul (p s input : List Byte) :
    ((∀ b ∈ p, b ≠ 0) → ImageSbat.parse (p ++ 0 :: s) = ImageSbat.parse p)
    ∧ ((∃ b ∈ input.takeWhile (fun b => b ≠ 0), 128 ≤ b) →
        ImageSbat.parse input = .error .InvalidAscii) := by
  constructor
  · intro hp
    unfold ImageSbat.parse trim_ascii_at_null
    rw [takeWhile_ne_zero_append p s hp]
  · rintro ⟨b, hb, hb128⟩
    have hall : (input.takeWhile (fun b => b ≠ 0)).all
        (fun b => b < 128) = false := by
      rw [List.all_eq_false]
      exact ⟨b, hb, by simpa using Nat.not_lt.mpr hb128⟩
    have htrim : trim_ascii_at_null input = .error .InvalidAscii := by
      unfold trim_ascii_at_null
      rw [hall]
      simp
    exact ImageSbat.parse_eq_of_trim_error input _ htrim

/-- Witness for C6 with `p = "a,1"`, garbage `s = [200]`, and the
non-ASCII input `"a" ++ [200]`. -/
theorem parse_ignores_after_nul_witness :
    ImageSbat.parse ([97, 44, 49] ++ 0 :: [200]) = ImageSbat.parse [97, 44, 49]
    ∧ ImageSbat.parse [97, 200] = .error .InvalidAscii :=
  ⟨(parse_ignores_after_nul [97, 44, 49] [200] [97, 200]).1 (by decide),
   (parse_ignores_after_nul [97, 44, 49] [200] [97, 200]).2
     ⟨200, by decide, by decide⟩⟩

/-- `Generation.from_ascii` fails only with `InvalidGeneration`. -/
theorem Generation.from_ascii_error (g : List Byte) (e : ParseError)
    (h : Generation.from_ascii g = .error e) : e = .InvalidGeneration := by
  unfold Generation.from_ascii at h
  split at h
  · injection h with h
    exact h.symm
  · unfold Generation.new at h
    split at h
    · injection h with h
      exact h.symm
    · exact absurd h (by simp)

/-- Counterexample to C8 as stated: a record whose field 0 is the empty
string is accepted, not rejected — the input `",1"` (an empty name and
generation 1) parses successfully as image metadata, and its record
converts to a component with the empty name. -/
theorem empty_name_accepted :
    ImageSbat.parse [44, 49] = .ok [44, 49]
    ∧ Component.from_record (([44, 49].splitOn 44).take NUM_ENTRY_FIELDS)
        = .ok ⟨[], 1⟩ :=
  ⟨rfl, rfl⟩

/-- C8 (amended): `Component.from_record` fails with `TooFewFields`
exactly when field 0 or field 1 is missing; a present but empty field 0 is
accepted as a component name. -/
theorem component_required_fields (r : CsvRecord) (g : List Byte)
    (v : Nat) :
    (Component.from_record r = .error .TooFewFields ↔
      (r[0]? = none ∨ r[1]? = none))
    ∧ (r[0]? = some [] → r[1]? = some g →
        Generation.from_ascii g = .ok v →
          Component.from_record r = .ok ⟨[], v⟩) := by
  constructor
  · unfold Component.from_record
    cases h0 : r[0]? with
    | none => simp
    | some nm =>
      cases h1 : r[1]? with
      | none => simp
      | some g' =>
        cases hg : Generation.from_ascii g' with
        | error e =>
          have he : e = .InvalidGeneration :=
            Generation.from_ascii_error g' e hg
          subst he
          simp [hg]
        | ok w => simp [hg]
  · intro h0 h1 hg
    simp [Component.from_record, h0, h1, hg]

/-- Witness for the amended C8 at the record `["", "1"]`. -/
theorem component_required_fields_witness :
    (Component.from_record [[], [49]] = .error .TooFewFields ↔
      (([[], [49]] : CsvRecord)[0]? = none ∨
        ([[], [49]] : CsvRecord)[1]? = none))
    ∧ (([[], [49]] : CsvRecord)[0]? = some [] →
        ([[], [49]] : CsvRecord)[1]? = some [49] →
        Generation.from_ascii [49] = .ok 1 →
          Component.from_record [[], [49]] = .ok ⟨[], 1⟩) :=
  component_required_fields [[], [49]] [49] 1

/-- Counterexample to C7 as stated: a generation string with a leading `+`
is accepted by `Generation.from_ascii` (Rust `u32::from_str` consumes one
leading plus sign), even though `+` is not a decimal digit. -/
theorem generation_accepts_leading_plus :
    Generation.from_ascii [43, 53] = .ok 5 ∧ isDigit 43 = false :=
  ⟨rfl, rfl⟩

/-- A digit never equals the plus sign. -/
theorem isDigit_ne_plus (d : Byte) (h : isDigit d = true) : d ≠ 43 := by
  unfold isDigit at h
  intro hd
  subst hd
  simp at h

/-- C7 (amended): `Generation.from_ascii s` succeeds with value `v` exactly
when `s` is an optional single leading `+` followed by a nonempty base-10
digit string of value `v` with `1 ≤ v ≤ 2^32 - 1`; the empty string,
whitespace, other non-digits, zero and out-of-range values all fail with
`InvalidGeneration`. -/
theorem generation_from_ascii_iff (s : List Byte) (v : Nat) :
    Generation.from_ascii s = .ok v ↔
      ∃ ds : List Byte, (s = ds ∨ s = 43 :: ds) ∧ ds ≠ [] ∧
        ds.all isDigit = true ∧ digitsToNat ds = v ∧
        1 ≤ v ∧ v ≤ 2 ^ 32 - 1 := by
  have hpow : (2 : Nat) ^ 32 = 4294967296 := by norm_num
  constructor
  · intro h
    unfold Generation.from_ascii at h
    split at h
    · exact absurd h (by simp)
    · rename_i w hu
      unfold Generation.new at h
      split at h
      · exact absurd h (by simp)
      · rename_i hw
        injection h with h
        subst h
        unfold u32FromStr at hu
        split at hu
        · exact absurd hu (by simp)
        · rename_i hne
          split at hu
          · rename_i hdig
            split at hu
            · rename_i hlt
              injection hu with hu
              refine ⟨stripPlus s, ?_, ?_, hdig, hu, ?_, ?_⟩
              · unfold stripPlus
                by_cases hh : s.head? = some 43
                · rw [if_pos hh]
                  right
                  cases s with
                  | nil => exact absurd hh (by simp)
                  | cons b rest =>
                    simp only [List.head?_cons, Option.some.injEq] at hh
                    rw [hh]
                    rfl
                · rw [if_neg hh]
                  left
                  rfl
              · intro hnil
                rw [hnil] at hne
                exact hne (by simp)
              · omega
              · rw [hu] at hlt
                rw [hpow] at hlt
                rw [hpow]
                omega
            · exact absurd hu (by simp)
          · exact absurd hu (by simp)
  · rintro ⟨ds, hds, hne, hdig, hval, hv1, hv2⟩
    rw [hpow] at hv2
    have hstrip : stripPlus s = ds := by
      rcases hds with rfl | rfl
      · unfold stripPlus
        cases hs : s.head? with
        | none => rw [if_neg (by simp [hs])]
        | some d =>
          have hd : d ∈ s := List.mem_of_mem_head? (hs ▸ rfl)
          have hdd : isDigit d = true := by
            rw [List.all_eq_true] at hdig
            exact hdig d hd
          rw [if_neg]
          simp only [hs, Option.some.injEq]
          exact isDigit_ne_plus d hdd
      · unfold stripPlus
        rw [if_pos (by simp)]
        rfl
    have hu : u32FromStr s = some v := by
      unfold u32FromStr
      rw [hstrip]
      rw [if_neg (by simp [hne]), if_pos hdig, hval,
        if_pos (by rw [hpow]; omega)]
    have hnew : Generation.new v = .ok v := by
      unfold Generation.new
      rw [if_neg (by omega)]
    simp [Generation.from_ascii, hu, hnew]

/-- Witness for the amended C7 at the input `"+5"` with value 5. -/
theorem generation_from_ascii_iff_witness :
    Generation.from_ascii [43, 53] = .ok 5 ↔
      ∃ ds : List Byte, ([43, 53] = ds ∨ [43, 53] = 43 :: ds) ∧ ds ≠ [] ∧
        ds.all isDigit = true ∧ digitsToNat ds = 5 ∧
        1 ≤ 5 ∧ 5 ≤ 2 ^ 32 - 1 :=
  generation_from_ascii_iff [43, 53] 5

/-- Record truncation does not affect the component fields: the component
only reads fields 0 and 1, which survive any truncation to at least two
fields. -/
theorem Component.from_record_take (fs : CsvRecord) (n : Nat) (h : 2 ≤ n) :
    Component.from_record (fs.take n) = Component.from_record fs := by
  unfold Component.from_record
  rw [List.getElem?_take, List.getElem?_take]
  rw [if_pos (by omega : (0 : Nat) < n), if_pos (by omega : (1 : Nat) < n)]

/-- If every nonempty line before `line` carries a valid component record
and `line` contains a disallowed character, the validation loop fails with
`SpecialChar` at the first disallowed character of `line`. -/
theorem validateRecords_special_char (n : Nat) (hn : 2 ≤ n)
    (pre : List (List Byte)) (line : List Byte) (post : List (List Byte))
    (c : Byte)
    (hpre : ∀ l ∈ pre, l.isEmpty = false →
      findBadChar (l.splitOn 44) = none ∧
        ∃ comp, Component.from_record (l.splitOn 44) = .ok comp)
    (hbad : findBadChar (line.splitOn 44) = some c) :
    validateRecords n (pre ++ line :: post) = .error (.SpecialChar c) := by
  induction pre with
  | nil =>
    have hline : line.isEmpty = false := by
      cases hl : line.isEmpty with
      | false => rfl
      | true =>
        exfalso
        rw [List.isEmpty_iff.mp hl] at hbad
        have : findBadChar (([] : List Byte).splitOn 44) = none := rfl
        rw [this] at hbad
        exact absurd hbad (by simp)
    have hp : parseRecord n line = .error (.SpecialChar c) := by
      unfold parseRecord
      rw [hbad]
    simpa using validateRecords_cons_err1 n line post _ hline hp
  | cons l pre ih =>
    cases hemp : l.isEmpty with
    | true =>
      rw [List.cons_append, validateRecords_cons_empty n l _ hemp]
      exact ih fun l' hl' => hpre l' (List.mem_cons_of_mem l hl')
    | false =>
      obtain ⟨hnone, comp, hcomp⟩ := hpre l (List.mem_cons_self l pre) hemp
      have hp : parseRecord n l = .ok ((l.splitOn 44).take n) := by
        unfold parseRecord
        rw [hnone]
      have hc : Component.from_record ((l.splitOn 44).take n) = .ok comp := by
        rw [Component.from_record_take _ n hn]
        exact hcomp
      rw [List.cons_append, validateRecords_cons_ok n l _ _ comp hemp hp hc]
      exact ih fun l' hl' => hpre l' (List.mem_cons_of_mem l hl')

/-- Counterexample to C5 as stated: in the input `"a\n\""`, line 2 carries
the disallowed quotation-mark character, yet both parsers fail with
`TooFewFields` — the record-level error of the earlier line `"a"` preempts
the `SpecialChar` error of the later line. -/
theorem special_char_preempted :
    ImageSbat.parse [97, 10, 34] = .error .TooFewFields
    ∧ RevocationSbat.parse [97, 10, 34] = .error .TooFewFields
    ∧ is_char_allowed_in_field 34 = false
    ∧ ParseError.TooFewFields ≠ ParseError.SpecialChar 34 :=
  ⟨rfl, rfl, rfl, by decide⟩

/-- C5 (amended): if the input up to the first NUL is ASCII, every
nonempty line before the offending line parses as a valid component
record, and some line contains a disallowed character, then both parsers
abort the whole parse with `SpecialChar(c)` where `c` is the first
disallowed character of that line in field-then-character scan order; no
records are exposed to the caller. -/
theorem parse_special_char_abort (input t : List Byte)
    (pre : List (List Byte)) (line : List Byte) (post : List (List Byte))
    (c : Byte)
    (ht : trim_ascii_at_null input = .ok t)
    (hsplit : splitLines t = pre ++ line :: post)
    (hpre : ∀ l ∈ pre, l.isEmpty = false →
      findBadChar (l.splitOn 44) = none ∧
        ∃ comp, Component.from_record (l.splitOn 44) = .ok comp)
    (hbad : findBadChar (line.splitOn 44) = some c) :
    ImageSbat.parse input = .error (.SpecialChar c)
    ∧ RevocationSbat.parse input = .error (.SpecialChar c) := by
  constructor
  · apply imageParse_eq_of_validate_error input t _ ht
    rw [hsplit]
    exact validateRecords_special_char NUM_ENTRY_FIELDS (by decide)
      pre line post c hpre hbad
  · apply revocationParse_eq_of_validate_error input t _ ht
    rw [hsplit]
    exact validateRecords_special_char MAX_HEADER_FIELDS (by decide)
      pre line post c hpre hbad

/-- Witness for the amended C5 on the input `"a,1\n\""`: the first line is
a valid component and the second line's quotation mark aborts both
parsers with `SpecialChar`. -/
theorem parse_special_char_abort_witness :
    ImageSbat.parse [97, 44, 49, 10, 34] = .error (.SpecialChar 34)
    ∧ RevocationSbat.parse [97, 44, 49, 10, 34] = .error (.SpecialChar 34) := by
  refine parse_special_char_abort [97, 44, 49, 10, 34] [97, 44, 49, 10, 34]
    [[97, 44, 49]] [34] [] 34 rfl rfl ?_ rfl
  intro l hl hne
  rw [List.mem_singleton] at hl
  subst hl
  exact ⟨rfl, ⟨⟨[97], 1⟩, rfl⟩⟩

/-- A NUL-scan finds nothing exactly when every byte is nonzero. -/
theorem findIdx_zero_none (l : List Byte) :
    l.findIdx? (fun b => b = 0) = none ↔ l.all (fun b => b ≠ 0) = true := by
  rw [List.findIdx?_eq_none_iff, List.all_eq_true]
  constructor
  · intro h x hx
    simpa using h x hx
  · intro h x hx
    simpa using h x hx

/-- The prefix before the first NUL found by a scan is the run of non-NUL
bytes. -/
theorem findIdx_zero_take (l : List Byte) (n : Nat)
    (h : l.findIdx? (fun b => b = 0) = some n) :
    l.take n = l.takeWhile (fun b => b ≠ 0) := by
  induction l generalizing n with
  | nil => exact absurd h (by simp)
  | cons a l ih =>
    rw [List.findIdx?_cons] at h
    by_cases ha : a = 0
    · rw [if_pos (by simpa using ha)] at h
      injection h with h
      subst h
      subst ha
      simp [List.takeWhile_cons]
    · rw [if_neg (by simpa using ha)] at h
      rw [List.findIdx?_succ] at h
      cases hl : l.findIdx? (fun b => b = 0) with
      | none => rw [hl] at h; exact absurd h (by simp)
      | some m =>
        rw [hl] at h
        injection h with h
        subst h
        rw [List.take_succ_cons, List.takeWhile_cons,
          if_pos (by simpa using ha), ih m hl]

/-- Counterexample to C3 as stated: the payload offsets are relative to
the end of the 4-byte version field, not to the end of the 12-byte header.
For the version-0 blob with both offsets 8 and the bytes `0x41 0x00` at
absolute positions 12 and 13, the decoder returns the payload `[0x41]`
read from absolute offset 4 + 8 = 12, while the bytes from absolute
offset 8 + 8 = 16 up to the first NUL are empty. -/
theorem revocation_section_offset_base :
    RevocationSection.parse
        [0, 0, 0, 0, 8, 0, 0, 0, 8, 0, 0, 0, 65, 0] = .ok ([65], [65])
    ∧ (([0, 0, 0, 0, 8, 0, 0, 0, 8, 0, 0, 0, 65, 0] : List Byte).drop
        (8 + 8)).takeWhile (fun b => b ≠ 0) = []
    ∧ ([65] : List Byte) ≠ [] :=
  ⟨rfl, rfl, by decide⟩

/-- C3 (amended): `RevocationSection.parse` implements exactly the decode
algorithm of the specification with the payload offsets taken relative to
the end of the version field: reject fewer than 4 bytes with
`MissingVersion`; reject a nonzero little-endian version; reject fewer
than 8 remaining bytes with `MissingHeader`; check the previous then the
latest offset against the remaining length; then scan each payload for a
NUL terminator (previous first), failing with the respective
`Missing…Null`; on success each payload is the run of bytes from absolute
offset `4 + offset` up to the first subsequent NUL, exclusive. -/
theorem revocation_section_parse_spec (blob : List Byte) :
    RevocationSection.parse blob = revocationSectionSpec blob := by
  unfold RevocationSection.parse revocationSectionSpec
  dsimp only
  split_ifs with h1 h2 h3 h4 h5 h6 h7
  · rfl
  · rfl
  · rfl
  · rfl
  · rfl
  · rw [(findIdx_zero_none _).mpr h6]
  · cases hp : ((blob.drop 4).drop (le32 ((blob.drop 4).take 4))).findIdx?
        (fun b => b = 0) with
    | none =>
      rw [findIdx_zero_none] at hp
      exact absurd hp h6
    | some n =>
      dsimp only
      rw [(findIdx_zero_none _).mpr h7]
  · cases hp : ((blob.drop 4).drop (le32 ((blob.drop 4).take 4))).findIdx?
        (fun b => b = 0) with
    | none =>
      rw [findIdx_zero_none] at hp
      exact absurd hp h6
    | some n =>
      cases hq : ((blob.drop 4).drop (le32 (((blob.drop 4).drop 4).take 4))).findIdx?
          (fun b => b = 0) with
      | none =>
        rw [findIdx_zero_none] at hq
        exact absurd hq h7
      | some m =>
        dsimp only
        rw [findIdx_zero_take _ _ hp, findIdx_zero_take _ _ hq]

/-- `Component.from_record` reads only fields 0 and 1. -/
theorem Component.from_record_congr (r1 r2 : CsvRecord)
    (h0 : r1[0]? = r2[0]?) (h1 : r1[1]? = r2[1]?) :
    Component.from_record r1 = Component.from_record r2 := by
  unfold Component.from_record
  rw [h0, h1]

/-- The components of a revocation list are obtained record by record. -/
theorem components_eq_records (t : List Byte) :
    RevocationSbat.components t =
      (recordsOf MAX_HEADER_FIELDS t).filterMap
        (fun r => (Component.from_record r).toOption) := by
  unfold RevocationSbat.components recordsOf
  rw [List.filterMap_filterMap]
  congr 1
  funext x
  cases x <;> simp [Except.toOption]

/-- C9: the cosmetic date plays no role in validation — for two
successfully parsed revocation lists whose records agree except possibly
at field 2 of the first record (the date slot: present, absent or
different), `is_component_revoked` agrees on every component and
`validate_image` agrees on every image. -/
theorem date_plays_no_role (i1 i2 t1 t2 : List Byte)
    (h1 : RevocationSbat.parse i1 = .ok t1)
    (h2 : RevocationSbat.parse i2 = .ok t2)
    (hlen : (recordsOf MAX_HEADER_FIELDS t1).length =
      (recordsOf MAX_HEADER_FIELDS t2).length)
    (htail : (recordsOf MAX_HEADER_FIELDS t1).tail =
      (recordsOf MAX_HEADER_FIELDS t2).tail)
    (hhead : ∀ r1 r2 : CsvRecord,
      (recordsOf MAX_HEADER_FIELDS t1).head? = some r1 →
      (recordsOf MAX_HEADER_FIELDS t2).head? = some r2 →
        r1[0]? = r2[0]? ∧ r1[1]? = r2[1]?) :
    (∀ c : Component, is_component_revoked t1 c = is_component_revoked t2 c)
    ∧ ∀ img : List Byte, validate_image t1 img = validate_image t2 img := by
  have hcomp : RevocationSbat.components t1 = RevocationSbat.components t2 := by
    rw [components_eq_records, components_eq_records]
    cases hr1 : recordsOf MAX_HEADER_FIELDS t1 with
    | nil =>
      cases hr2 : recordsOf MAX_HEADER_FIELDS t2 with
      | nil => rfl
      | cons b l2 =>
        rw [hr1, hr2] at hlen
        exact absurd hlen (by simp)
    | cons a l1 =>
      cases hr2 : recordsOf MAX_HEADER_FIELDS t2 with
      | nil =>
        rw [hr1, hr2] at hlen
        exact absurd hlen (by simp)
      | cons b l2 =>
        rw [hr1, hr2] at htail
        simp only [List.tail_cons] at htail
        obtain ⟨ha0, ha1⟩ := hhead a b (by rw [hr1]; rfl) (by rw [hr2]; rfl)
        rw [List.filterMap_cons, List.filterMap_cons,
          Component.from_record_congr a b ha0 ha1, htail]
  have hrev : ∀ c : Component,
      is_component_revoked t1 c = is_component_revoked t2 c := by
    intro c
    unfold is_component_revoked
    rw [hcomp]
  refine ⟨hrev, ?_⟩
  intro img
  unfold validate_image
  have hfun : (fun e : Entry => is_component_revoked t1 e.component) =
      (fun e : Entry => is_component_revoked t2 e.component) := by
    funext e
    exact hrev e.component
  rw [hfun]

/-- Witness for C9: `sbat,1,2021030218` (date present) against `sbat,1`
(date absent) — validation agrees on every component and image. -/
theorem date_plays_no_role_witness :
    (∀ c : Component,
      is_component_revoked
        [115, 98, 97, 116, 44, 49, 44, 50, 48, 50, 49, 48, 51, 48, 50, 49, 56]
        c =
      is_component_revoked [115, 98, 97, 116, 44, 49] c)
    ∧ ∀ img : List Byte,
        validate_image
          [115, 98, 97, 116, 44, 49, 44, 50, 48, 50, 49, 48, 51, 48, 50, 49, 56]
          img =
        validate_image [115, 98, 97, 116, 44, 49] img := by
  refine date_plays_no_role
    [115, 98, 97, 116, 44, 49, 44, 50, 48, 50, 49, 48, 51, 48, 50, 49, 56]
    [115, 98, 97, 116, 44, 49]
    [115, 98, 97, 116, 44, 49, 44, 50, 48, 50, 49, 48, 51, 48, 50, 49, 56]
    [115, 98, 97, 116, 44, 49] rfl rfl rfl rfl ?_
  intro r1 r2 hh1 hh2
  have e1 : some [[115, 98, 97, 116], [49],
      [50, 48, 50, 49, 48, 51, 48, 50, 49, 56]] = some r1 := hh1
  have e2 : some [[115, 98, 97, 116], [49]] = some r2 := hh2
  injection e1 with e1
  injection e2 with e2
  subst e1
  subst e2
  exact ⟨rfl, rfl⟩

end Sbat
